import Mathlib

/-!
Shallow embedding of the todo-list core of the evolu-todomvc repository.

The repository ships two versions of the same single-file component
(src/src/components/TodoMvc.vue and the unnamed sibling file, called
"part_000" below); they agree on every function except `toggleOne` and the
filter predicates, so each definition below names the file it comes from
when the two differ.

Modelling conventions:
  * `TodoId` (an opaque branded string allocated by evolu) is modelled as
    `Nat`; only equality of ids is ever used by the code.
  * `SqliteBoolean` is the subtype 0 | 1 of numbers; it is modelled as
    `Bool` (`cast` converts between JS booleans and 0/1, so
    `cast(!todo.completed)` and `cast(todo.completed < 1)` both flip the
    flag, and `todo.completed === 0` / `!todo.completed` both test it).
  * `NonEmptyString1000` is a branded string of length 1..1000;
    `S.decodeSync` on it throws a ParseError outside that range, modelled
    by `Except Unit`.
  * Every `evolu.create` / `evolu.update` call the code issues is recorded
    as an `EvoluCall` value in the second component of an operation's
    result, so the adapter traffic of each operation is visible.
  * JS array primitives used by the code (`findIndex`, `splice(start, 1)`,
    indexed assignment with a possibly negative index) are embedded by
    `jsFindIndex`, `jsSplice1` and `jsSet` with JS semantics, negative
    index normalisation included.
-/

/-- Index of the first element satisfying `p`, as JS
`Array.prototype.findIndex` computes it (before its conversion to -1). -/
def jsFindIdx (p : α → Bool) : List α → Option Nat
  | [] => none
  | a :: l => if p a then some 0 else (jsFindIdx p l).map (· + 1)

/-- JS `Array.prototype.findIndex`: the index of the first match, or -1. -/
def jsFindIndex (p : α → Bool) (l : List α) : Int :=
  match jsFindIdx p l with
  | some i => (i : Int)
  | none => -1

/-- JS indexed assignment `arr[i] = v` for the indices this code can
produce: a valid index, or -1 from a failed `findIndex` (which stores the
value under the property "-1" and leaves every array element unchanged). -/
def jsSet (l : List α) (i : Int) (v : α) : List α :=
  if i < 0 then l else l.set i.toNat v

/-- JS `Array.prototype.splice(start, 1)`: one element is removed at the
normalised start index (a negative `start` counts from the end of the
array and is clamped at 0; a `start` at or past the end removes nothing). -/
def jsSplice1 (l : List α) (start : Int) : List α :=
  let s : Nat := if start < 0 then ((l.length : Int) + start).toNat else min start.toNat l.length
  l.take s ++ l.drop (s + 1)

/-- JS `String.prototype.trim`, structurally over the character list. -/
def jsTrim (s : String) : String :=
  ⟨((s.data.dropWhile Char.isWhitespace).reverse.dropWhile Char.isWhitespace).reverse⟩

/-- The `TodoItem` interface of both component files. -/
structure TodoItem where
  id : Nat
  title : String
  completed : Bool
  isDeleted : Option Bool
deriving Repr, DecidableEq

/-- One call made to the evolu Row Store Adapter, as issued by the code:
`evolu.create('todo', init)`, `evolu.update('todo', { id, completed })`,
`evolu.update('todo', { id, title })` or
`evolu.update('todo', { ...todo, isDeleted: true })`. -/
inductive EvoluCall where
  | create (title : String) (completed : Bool) (isDeleted : Bool)
  | updateCompleted (id : Nat) (completed : Bool)
  | updateTitle (id : Nat) (title : String)
  | updateIsDeletedTrue (todo : TodoItem)
deriving Repr, DecidableEq

/-- `filters.all`: the identity predicate. -/
def filtersAll (todos : List TodoItem) : List TodoItem := todos

/-- `filters.active`: TodoMvc.vue tests `!todo.completed`, part_000 tests
`todo.completed === 0`; on SqliteBoolean both mean `completed = false`. -/
def filtersActive (todos : List TodoItem) : List TodoItem :=
  todos.filter fun todo => !todo.completed

/-- `filters.completed`: TodoMvc.vue tests `todo.completed`, part_000
tests `todo.completed === 1`; on SqliteBoolean both mean
`completed = true`. -/
def filtersCompleted (todos : List TodoItem) : List TodoItem :=
  todos.filter fun todo => todo.completed

/-- One step of the `loadQuery` callback body: find the row's id in the
cache; push the row if absent, assign over the entry at that index
otherwise. Identical in both files. -/
def reconcileRow (todos : List TodoItem) (row : TodoItem) : List TodoItem :=
  let i := jsFindIndex (fun td => td.id == row.id) todos
  if i < 0 then todos ++ [row] else jsSet todos i row

/-- The whole `loadQuery` callback: `result.rows.forEach` over the cache,
i.e. a left fold of `reconcileRow`. -/
def reconcile (todos : List TodoItem) (rows : List TodoItem) : List TodoItem :=
  rows.foldl reconcileRow todos

/-- `toggleAll(e)`: the for-loop replaces every entry with a copy whose
`completed` is the checkbox state and issues one update per entry. -/
def toggleAll (todos : List TodoItem) (checked : Bool) : List TodoItem × List EvoluCall :=
  (todos.map fun t => { t with completed := checked },
   todos.map fun t => EvoluCall.updateCompleted t.id checked)

/-- `toggleOne(todo)` of part_000: finds the index of `todo.id` in the
cache, and when found stores a flipped copy there and issues the update. -/
def toggleOne (todos : List TodoItem) (todo : TodoItem) : List TodoItem × List EvoluCall :=
  let i := jsFindIndex (fun t => t.id == todo.id) todos
  if i > -1 then
    let completed := !todo.completed
    (jsSet todos i { todo with completed := completed },
     [EvoluCall.updateCompleted todo.id completed])
  else (todos, [])

/-- The index of the selected item: the computed
`index = todos.findIndex(t => t.id === selected?.id)` of both files
(`selected?.id` is undefined when nothing is selected, and
`t.id === undefined` is false). -/
def selIndex (todos : List TodoItem) (sel : Option TodoItem) : Int :=
  jsFindIndex
    (fun t => match sel with
      | some s => t.id == s.id
      | none => false)
    todos

/-- `toggleOne(todo)` of TodoMvc.vue: guards on `index.value > -1` and
assigns the flipped copy of `todo` at `index.value`, which is the index of
the SELECTED item, not the index of `todo`. -/
def toggleOneVue (todos : List TodoItem) (sel : Option TodoItem) (todo : TodoItem) :
    List TodoItem × List EvoluCall :=
  let i := selIndex todos sel
  if i > -1 then
    let completed := !todo.completed
    (jsSet todos i { todo with completed := completed },
     [EvoluCall.updateCompleted todo.id completed])
  else (todos, [])

/-- `S.decodeSync(NonEmptyString1000)`: yields the string when its length
is in 1..1000 and throws a ParseError otherwise. -/
def decodeNonEmptyString1000 (s : String) : Except Unit String :=
  if 1 ≤ s.length ∧ s.length ≤ 1000 then Except.ok s else Except.error ()

/-- `addTodo(e)`: trims the input; when non-empty, decodes it (which can
still throw for inputs over 1000 characters), asks evolu for an id and
pushes the new item. The fresh id the adapter allocates is a parameter. -/
def addTodo (todos : List TodoItem) (rawValue : String) (freshId : Nat) :
    Except Unit (List TodoItem × List EvoluCall) :=
  let value := jsTrim rawValue
  if value ≠ "" then
    match decodeNonEmptyString1000 value with
    | Except.error e => Except.error e
    | Except.ok title =>
        Except.ok
          (todos ++ [{ id := freshId, title := title, completed := false, isDeleted := some false }],
           [EvoluCall.create title false false])
  else Except.ok (todos, [])

/-- `removeTodo(todo)`: splices one element out at
`todos.findIndex(t => t.id === todo.id)` (which is -1 when the id is
absent) and issues the soft-delete update. Identical in both files. -/
def removeTodo (todos : List TodoItem) (todo : TodoItem) : List TodoItem × List EvoluCall :=
  let i := jsFindIndex (fun t => t.id == todo.id) todos
  (jsSplice1 todos i, [EvoluCall.updateIsDeletedTrue todo])

/-- The state `doneEdit` reads and writes: the cache and the selection. -/
structure EditState where
  todos : List TodoItem
  selected : Option TodoItem
deriving Repr, DecidableEq

/-- `editTodo(todo)`: sets the selection. -/
def editTodo (s : EditState) (todo : TodoItem) : EditState :=
  { s with selected := some todo }

/-- `cancelEdit()`: clears the selection. -/
def cancelEdit (s : EditState) : EditState :=
  { s with selected := none }

/-- `doneEdit(e)`: a no-op when nothing is selected; otherwise decodes the
trimmed input with `S.decodeSync(NonEmptyString1000)` (throwing on an
empty or over-long string), and on success stores the retitled copy at the
selected item's index and issues the title update. The source's
`else removeTodo(selected.value)` branch is kept even though a successful
decode can never return an empty string. Neither branch assigns to
`selected`. Identical in both files. -/
def doneEdit (s : EditState) (inputValue : String) : Except Unit (EditState × List EvoluCall) :=
  match s.selected with
  | none => Except.ok (s, [])
  | some sel =>
    match decodeNonEmptyString1000 (jsTrim inputValue) with
    | Except.error e => Except.error e
    | Except.ok title =>
        if title ≠ "" then
          let todo : TodoItem := { sel with title := title }
          Except.ok
            ({ s with todos := jsSet s.todos (selIndex s.todos s.selected) todo },
             [EvoluCall.updateTitle todo.id title])
        else
          let p := removeTodo s.todos sel
          Except.ok ({ todos := p.1, selected := s.selected }, p.2)

/-- `removeCompleted()`: assigns `filters.active(todos.value)` to the
cache. No evolu call appears in its body. Identical in both files. -/
def removeCompleted (todos : List TodoItem) : List TodoItem × List EvoluCall :=
  (filtersActive todos, [])

/-- First-occurrence replacement for `hash.replace(/#\/?/, '')`: drops the
first `#` together with one `/` directly after it, if any. -/
def stripHashChars : List Char → List Char
  | [] => []
  | c :: cs =>
    if c = '#' then
      match cs with
      | '/' :: rest => rest
      | _ => cs
    else c :: stripHashChars cs

/-- The route token `window.location.hash.replace(/#\/?/, '')`. -/
def stripHashRoute (hash : String) : String :=
  ⟨stripHashChars hash.data⟩

/-- The own keys of the `filters` object literal. -/
def filterKeyNames : List String := ["all", "active", "completed"]

/-- The property names every plain object literal inherits from
`Object.prototype`, which the JS `in` operator also matches. -/
def objectPrototypeProps : List String :=
  ["constructor", "hasOwnProperty", "isPrototypeOf", "propertyIsEnumerable",
   "toLocaleString", "toString", "valueOf",
   "__defineGetter__", "__defineSetter__", "__lookupGetter__", "__lookupSetter__",
   "__proto__"]

/-- The test `route in filters`: the `in` operator walks the prototype
chain, so it accepts the three own keys AND every property name inherited
from `Object.prototype`. -/
def jsInFilters (key : String) : Bool :=
  filterKeyNames.contains key || objectPrototypeProps.contains key

/-- The state `onHashChange` reads and writes. -/
structure RouterState where
  hash : String
  visibility : String
deriving Repr, DecidableEq

/-- `onHashChange()`: strips the leading `#/?` from the fragment; when the
token passes `route in filters`, stores it as the visibility; otherwise
clears the fragment and resets the visibility to all. Identical in both
files. -/
def onHashChange (s : RouterState) : RouterState :=
  let route := stripHashRoute s.hash
  if jsInFilters route then { s with visibility := route }
  else { hash := "", visibility := "all" }

/-- A concrete active item. -/
def itemA : TodoItem := { id := 0, title := "a", completed := false, isDeleted := some false }

/-- A concrete completed item, with an id different from itemA's. -/
def itemB : TodoItem := { id := 1, title := "b", completed := true, isDeleted := some false }

/-- A second concrete active item, with an id different from itemA's and
itemB's. -/
def itemC : TodoItem := { id := 2, title := "c", completed := false, isDeleted := some false }

/-! ## The reconciliation fold, restated structurally

`reconcileRow` is proved equal to a structurally recursive replace-or-append
function `upsert`, and the idempotence of `reconcile` is established through
a commutation analysis of `upsert`. -/

/-- Structural restatement of `reconcileRow`: replace the first entry
carrying the row's id in place, or append the row at the end. -/
def upsert : List TodoItem → TodoItem → List TodoItem
  | [], r => [r]
  | t :: ts, r => if t.id = r.id then r :: ts else t :: upsert ts r

theorem reconcileRow_eq_upsert (c : List TodoItem) (r : TodoItem) :
    reconcileRow c r = upsert c r := by
  induction c with
  | nil => rfl
  | cons t ts ih =>
    by_cases h : t.id = r.id
    · simp [reconcileRow, jsFindIndex, jsFindIdx, h, jsSet, upsert]
    · have hb : (t.id == r.id) = false := by simp [h]
      cases hf : jsFindIdx (fun td => td.id == r.id) ts with
      | none =>
        have hts : reconcileRow ts r = ts ++ [r] := by
          simp [reconcileRow, jsFindIndex, hf]
        simp [reconcileRow, jsFindIndex, jsFindIdx, hb, hf, upsert, h, ← ih, hts]
      | some j =>
        have hj : ¬((j : Int) < 0) := by omega
        have hj1 : ¬((j : Int) + 1 < 0) := by omega
        have hts : reconcileRow ts r = ts.set j r := by
          simp [reconcileRow, jsFindIndex, hf, jsSet, hj]
        simp [reconcileRow, jsFindIndex, jsFindIdx, hb, hf, upsert, h, ← ih, hts, jsSet, hj, hj1]

theorem reconcile_eq_foldl_upsert (rows : List TodoItem) :
    ∀ c, reconcile c rows = rows.foldl upsert c := by
  induction rows with
  | nil => intro c; rfl
  | cons r rs ih =>
    intro c
    show reconcile (reconcileRow c r) rs = rs.foldl upsert (upsert c r)
    rw [reconcileRow_eq_upsert]
    exact ih (upsert c r)

/-- The ids of the cache entries, in order. -/
def cacheIds (c : List TodoItem) : List Nat := c.map TodoItem.id

theorem mem_cacheIds_upsert_self (c : List TodoItem) (r : TodoItem) :
    r.id ∈ cacheIds (upsert c r) := by
  induction c with
  | nil => simp [upsert, cacheIds]
  | cons t ts ih =>
    by_cases h : t.id = r.id
    · simp [upsert, h, cacheIds]
    · simp only [upsert, if_neg h, cacheIds, List.map_cons, List.mem_cons]
      exact Or.inr ih

theorem mem_cacheIds_upsert (c : List TodoItem) (r : TodoItem) (x : Nat)
    (hx : x ∈ cacheIds c) : x ∈ cacheIds (upsert c r) := by
  induction c with
  | nil => simp [cacheIds] at hx
  | cons t ts ih =>
    simp only [cacheIds, List.map_cons, List.mem_cons] at hx
    by_cases h : t.id = r.id
    · rcases hx with hx | hx
      · exact (by simp [upsert, h, cacheIds, hx ▸ h] : x ∈ cacheIds (upsert (t :: ts) r))
      · simp only [upsert, if_pos h, cacheIds, List.map_cons, List.mem_cons]
        exact Or.inr hx
    · rcases hx with hx | hx
      · simp [upsert, h, cacheIds, hx]
      · simp only [upsert, if_neg h, cacheIds, List.map_cons, List.mem_cons]
        exact Or.inr (ih hx)

theorem mem_cacheIds_foldl (rs : List TodoItem) :
    ∀ (c : List TodoItem) (x : Nat), x ∈ cacheIds c → x ∈ cacheIds (rs.foldl upsert c) := by
  induction rs with
  | nil => intro c x hx; exact hx
  | cons r rest ih =>
    intro c x hx
    exact ih (upsert c r) x (mem_cacheIds_upsert c r x hx)

/-- The first cache entry with a given id. -/
def findById : List TodoItem → Nat → Option TodoItem
  | [], _ => none
  | t :: ts, x => if t.id = x then some t else findById ts x

theorem findById_upsert_self (c : List TodoItem) (r : TodoItem) :
    findById (upsert c r) r.id = some r := by
  induction c with
  | nil => simp [upsert, findById]
  | cons t ts ih =>
    by_cases h : t.id = r.id
    · simp [upsert, h, findById]
    · simp [upsert, h, findById, ih]

theorem findById_upsert_ne (c : List TodoItem) (r : TodoItem) (x : Nat) (hx : x ≠ r.id) :
    findById (upsert c r) x = findById c x := by
  have hrx : r.id ≠ x := Ne.symm hx
  induction c with
  | nil => simp [upsert, findById, hrx]
  | cons t ts ih =>
    by_cases h : t.id = r.id
    · have htx : t.id ≠ x := h ▸ hrx
      simp only [upsert, if_pos h, findById]
      simp [htx, hrx]
    · simp only [upsert, if_neg h]
      by_cases h2 : t.id = x
      · simp [findById, h2]
      · simp [findById, h2, ih]

theorem findById_foldl_not_mem (rs : List TodoItem) :
    ∀ (c : List TodoItem) (x : Nat), (∀ r' ∈ rs, r'.id ≠ x) →
      findById (rs.foldl upsert c) x = findById c x := by
  induction rs with
  | nil => intro c x _; rfl
  | cons r rest ih =>
    intro c x hx
    have h1 : findById (rest.foldl upsert (upsert c r)) x = findById (upsert c r) x :=
      ih (upsert c r) x fun r' hr' => hx r' (List.mem_cons_of_mem r hr')
    have h2 : findById (upsert c r) x = findById c x :=
      findById_upsert_ne c r x fun h => (hx r (List.mem_cons_self r rest)) h.symm
    exact h1.trans h2

theorem upsert_eq_self_of_findById (c : List TodoItem) (r : TodoItem)
    (h : findById c r.id = some r) : upsert c r = c := by
  induction c with
  | nil => simp [findById] at h
  | cons t ts ih =>
    by_cases ht : t.id = r.id
    · simp only [findById, if_pos ht] at h
      simp [upsert, ht, Option.some_inj.mp h]
    · simp only [findById, if_neg ht] at h
      simp [upsert, ht, ih h]

theorem upsert_upsert_same (c : List TodoItem) (r r' : TodoItem) (h : r'.id = r.id) :
    upsert (upsert c r) r' = upsert c r' := by
  induction c with
  | nil => simp [upsert, h]
  | cons t ts ih =>
    by_cases ht : t.id = r.id
    · simp [upsert, ht, h, ht.trans h.symm]
    · have ht' : ¬t.id = r'.id := fun h2 => ht (h2.trans h)
      simp [upsert, ht, ht', ih]

theorem upsert_upsert_comm (c : List TodoItem) (r r' : TodoItem)
    (hmem : r.id ∈ cacheIds c) (hne : r'.id ≠ r.id) :
    upsert (upsert c r) r' = upsert (upsert c r') r := by
  induction c with
  | nil => simp [cacheIds] at hmem
  | cons t ts ih =>
    simp only [cacheIds, List.map_cons, List.mem_cons] at hmem
    by_cases ht : t.id = r.id
    · have ht' : ¬t.id = r'.id := fun h2 => hne (h2 ▸ ht)
      have hrr' : ¬r.id = r'.id := fun h2 => hne h2.symm
      simp [upsert, ht, ht', hrr']
    · rcases hmem with hmem | hmem
      · exact absurd hmem.symm ht
      · by_cases ht' : t.id = r'.id
        · have hr'r : ¬r'.id = r.id := hne
          simp [upsert, ht, ht', hr'r]
        · simp only [upsert, if_neg ht, if_neg ht']
          rw [ih hmem]

theorem foldl_upsert_upsert (rs : List TodoItem) :
    ∀ (c : List TodoItem) (r : TodoItem), r.id ∈ cacheIds c →
      rs.foldl upsert (upsert c r) =
        if rs.any (fun r' => r'.id == r.id) then rs.foldl upsert c
        else upsert (rs.foldl upsert c) r := by
  induction rs with
  | nil => intro c r _; simp
  | cons r' rest ih =>
    intro c r hmem
    by_cases h : r'.id = r.id
    · have heq : upsert (upsert c r) r' = upsert c r' := upsert_upsert_same c r r' h
      simp only [List.foldl_cons, heq, List.any_cons, h, beq_self_eq_true, Bool.true_or,
        if_pos]
    · have hcomm : upsert (upsert c r) r' = upsert (upsert c r') r :=
        upsert_upsert_comm c r r' hmem h
      have hmem' : r.id ∈ cacheIds (upsert c r') := mem_cacheIds_upsert c r' r.id hmem
      have hb : (r'.id == r.id) = false := by simp [h]
      simp only [List.foldl_cons, hcomm, ih (upsert c r') r hmem', List.any_cons, hb,
        Bool.false_or]

theorem foldl_upsert_idem (rows : List TodoItem) :
    ∀ c : List TodoItem, rows.foldl upsert (rows.foldl upsert c) = rows.foldl upsert c := by
  induction rows with
  | nil => intro c; rfl
  | cons r rs ih =>
    intro c
    simp only [List.foldl_cons]
    have hmem : r.id ∈ cacheIds (rs.foldl upsert (upsert c r)) :=
      mem_cacheIds_foldl rs (upsert c r) r.id (mem_cacheIds_upsert_self c r)
    rw [foldl_upsert_upsert rs (rs.foldl upsert (upsert c r)) r hmem]
    by_cases hany : rs.any (fun r' => r'.id == r.id) = true
    · rw [if_pos hany, ih (upsert c r)]
    · rw [if_neg hany, ih (upsert c r)]
      have hfind : findById (rs.foldl upsert (upsert c r)) r.id = some r := by
        have h1 : findById (rs.foldl upsert (upsert c r)) r.id = findById (upsert c r) r.id := by
          refine findById_foldl_not_mem rs (upsert c r) r.id ?_
          intro r2 hr2 heq
          exact hany (List.any_eq_true.mpr ⟨r2, hr2, by simp [heq]⟩)
        exact h1.trans (findById_upsert_self c r)
      exact upsert_eq_self_of_findById _ r hfind

/-! ## Helper lemmas shared by the claim theorems -/

theorem mem_filtersActive_iff (todos : List TodoItem) (t : TodoItem) :
    t ∈ filtersActive todos ↔ t ∈ todos ∧ t.completed = false := by
  simp [filtersActive, List.mem_filter]

theorem mem_filtersCompleted_iff (todos : List TodoItem) (t : TodoItem) :
    t ∈ filtersCompleted todos ↔ t ∈ todos ∧ t.completed = true := by
  simp [filtersCompleted, List.mem_filter]

/-! ## The claims -/

/-- C1: the claim says remove(id) on an id absent from the Local Projection
Cache leaves the cache unchanged. It does not: `removeTodo` computes
`todos.value.splice(i, 1)` with `i = findIndex(...) = -1`, and JS splice
normalises the start index -1 to length - 1, so the LAST cache entry is
removed. Here the cache [itemA, itemC] does not contain itemB's id, yet
removing itemB drops itemC (and the soft-delete write for the absent itemB
is still issued). -/
theorem removeTodo_absent_id_removes_last_entry :
    removeTodo [itemA, itemC] itemB = ([itemA], [EvoluCall.updateIsDeletedTrue itemB]) ∧
    ([itemA] : List TodoItem) ≠ [itemA, itemC] :=
  ⟨rfl, by decide⟩

/-- C2 counterexample: the claim says clearCompleted() issues a soft-delete
write to the adapter for every removed item. On the cache
[itemA (active), itemB (completed)] `removeCompleted` removes itemB but its
body contains no evolu call at all: the write list is empty and in
particular contains no soft-delete write for itemB. -/
theorem removeCompleted_issues_no_write_cex :
    removeCompleted [itemA, itemB] = ([itemA], []) ∧
    EvoluCall.updateIsDeletedTrue itemB ∉ (removeCompleted [itemA, itemB]).2 :=
  ⟨rfl, by decide⟩

/-- C2 amended: clearCompleted() removes every completed item from the
local cache, leaving exactly the active items in their original order, and
issues NO adapter write: the removals are local-only and do not follow the
remove contract's soft-delete write. -/
theorem removeCompleted_clears_completed_no_writes (todos : List TodoItem) :
    (removeCompleted todos).1 = filtersActive todos ∧
    ((removeCompleted todos).1).Sublist todos ∧
    (∀ t ∈ (removeCompleted todos).1, t.completed = false) ∧
    (∀ t ∈ todos, t.completed = false → t ∈ (removeCompleted todos).1) ∧
    (removeCompleted todos).2 = [] := by
  refine ⟨rfl, List.filter_sublist todos, ?_, ?_, rfl⟩
  · intro t ht
    exact ((mem_filtersActive_iff todos t).mp ht).2
  · intro t ht hc
    exact (mem_filtersActive_iff todos t).mpr ⟨ht, hc⟩

/-- C3: the claim says commitEdit on a selected, present item with an input
that is empty after trimming removes the item and clears the Selection
without raising an error. It does not: `doneEdit` first runs
`S.decodeSync(NonEmptyString1000)(target.value.trim())`, which throws a
ParseError on the empty string, so the call errors out before the
`else removeTodo(selected.value)` branch (dead code) can run, and neither
the cache nor the Selection changes. Shown on the empty input and on a
whitespace-only input. -/
theorem doneEdit_empty_title_throws :
    doneEdit ⟨[itemA], some itemA⟩ "" = Except.error () ∧
    doneEdit ⟨[itemA], some itemA⟩ "   " = Except.error () :=
  ⟨rfl, rfl⟩

/-- C4: the claim says toggle(id) flips the completed field of the cache
item with that id. The TodoMvc.vue version of `toggleOne` instead guards on
`index.value > -1`, the index of the SELECTED item: with itemA present in
the cache but nothing selected, toggling itemA changes nothing and issues
no write, refuting the claim for that file (the part_000 version uses the
toggled item's own index and behaves as claimed). -/
theorem toggleOneVue_present_id_noop :
    toggleOneVue [itemA] none itemA = ([itemA], []) ∧ itemA ∈ [itemA] :=
  ⟨rfl, by decide⟩

/-- C5 counterexample: the claim says commitEdit clears the Selection in
both branches. On the selected present item itemA with the non-empty input
"hi", `doneEdit` succeeds, retitles the item and issues the title write,
but the Selection is still `some itemA`, not cleared. -/
theorem doneEdit_keeps_selection_cex :
    doneEdit ⟨[itemA], some itemA⟩ "hi" =
      Except.ok (⟨[{ itemA with title := "hi" }], some itemA⟩, [EvoluCall.updateTitle 0 "hi"]) ∧
    some itemA ≠ (none : Option TodoItem) :=
  ⟨rfl, by decide⟩

/-- C5 amended: commitEdit never clears the Selection: whenever `doneEdit`
returns normally, the Selection after the call equals the Selection before
it, in the non-empty-title branch and the (dead) delete branch alike; the
empty-title input instead throws, also leaving the Selection unchanged. -/
theorem doneEdit_preserves_selection (s : EditState) (input : String) (s' : EditState)
    (ws : List EvoluCall) (h : doneEdit s input = Except.ok (s', ws)) :
    s'.selected = s.selected := by
  unfold doneEdit at h
  split at h
  · simp only [Except.ok.injEq, Prod.mk.injEq] at h
    rw [← h.1]
  · split at h
    · cases h
    · split at h
      · simp only [Except.ok.injEq, Prod.mk.injEq] at h
        rw [← h.1]
      · simp only [Except.ok.injEq, Prod.mk.injEq] at h
        rw [← h.1]

/-- Witness for C5's amended theorem at the concrete input of the
counterexample: committing "hi" on selected itemA keeps the Selection. -/
theorem doneEdit_preserves_selection_witness :
    (EditState.mk [{ itemA with title := "hi" }] (some itemA)).selected =
      (EditState.mk [itemA] (some itemA)).selected :=
  doneEdit_preserves_selection ⟨[itemA], some itemA⟩ "hi"
    ⟨[{ itemA with title := "hi" }], some itemA⟩ [EvoluCall.updateTitle 0 "hi"] rfl

/-- C6: the claim says every token other than all/active/completed resets
the fragment and the visibility to All, so the visibility is always one of
the three modes. It does not hold: `route in filters` uses the JS `in`
operator, which also matches the properties `filters` inherits from
`Object.prototype`, so the fragment "#/toString" passes the test and the
visibility becomes "toString" - not a mode - while the fragment is kept. -/
theorem onHashChange_toString_escapes_modes :
    onHashChange ⟨"#/toString", "all"⟩ = ⟨"#/toString", "toString"⟩ ∧
    "toString" ∉ filterKeyNames :=
  ⟨rfl, by decide⟩

/-- C7: the claim says every operation preserves the no-duplicate-ids
invariant of the cache. The TodoMvc.vue version of `toggleOne` does not:
starting from the duplicate-free cache [itemA, itemB] with itemA selected,
toggling itemB writes the flipped copy of itemB at itemA's index, leaving
the cache with itemB's id twice (and itemA gone). -/
theorem toggleOneVue_duplicates_cache_id :
    (toggleOneVue [itemA, itemB] (some itemA) itemB).1.map TodoItem.id = [1, 1] ∧
    ¬((toggleOneVue [itemA, itemB] (some itemA) itemB).1.map TodoItem.id).Nodup ∧
    (([itemA, itemB] : List TodoItem).map TodoItem.id).Nodup :=
  ⟨rfl, by decide, by decide⟩

/-- C8: reconcile is idempotent: for every cache state and every snapshot
of rows (duplicates allowed, in any order), reconciling the same snapshot
twice yields the same cache as reconciling it once. -/
theorem reconcile_idempotent (c rows : List TodoItem) :
    reconcile (reconcile c rows) rows = reconcile c rows := by
  rw [reconcile_eq_foldl_upsert, reconcile_eq_foldl_upsert, foldl_upsert_idem]

/-- C9: the All filter is the identity, and the Active and Completed
filters partition every list by the completed field: each is an
order-preserving sublist, together they are a permutation of the input
(every element, with multiplicity, ends up in exactly one of the two), and
no item is in both. The embedding is a pure function, so the input list is
not mutated by construction. -/
theorem filters_identity_and_partition (L : List TodoItem) :
    filtersAll L = L ∧
    (filtersActive L).Sublist L ∧
    (filtersCompleted L).Sublist L ∧
    (filtersActive L ++ filtersCompleted L).Perm L ∧
    ∀ x : TodoItem, x ∈ filtersActive L → x ∉ filtersCompleted L := by
  refine ⟨rfl, List.filter_sublist L, List.filter_sublist L, ?_, ?_⟩
  · have h := List.filter_append_perm (fun t : TodoItem => !t.completed) L
    simpa [filtersActive, filtersCompleted, Bool.not_not] using h
  · intro x hx hc
    have h1 := (mem_filtersActive_iff L x).mp hx
    have h2 := (mem_filtersCompleted_iff L x).mp hc
    rw [h1.2] at h2
    exact Bool.false_ne_true h2.2

/-- C10: commitEdit with an absent Selection is a complete no-op: the
`if (selected.value)` guard fails, so `doneEdit` returns with the cache
unchanged, the Selection still absent, and no adapter write issued. -/
theorem doneEdit_absent_selection_noop (todos : List TodoItem) (input : String) :
    doneEdit ⟨todos, none⟩ input = Except.ok (⟨todos, none⟩, []) := rfl
